import Mathlib

/-!
Shallow embedding of the drift-detection engine of `ec2Drift`
(`internal/driftchecker/driftchecker.go`), together with proofs of the
specification claims about it.

The Go code is translated as follows: `cloud.Instance` becomes `Instance`
(its `Tags` map is represented as an association list of key/value pairs,
Go maps being sets of entries with distinct keys); the untyped
`interface{}` payload of a `DriftDetail` becomes the closed variant type
`Value`; goroutine scheduling and the buffered channel collapse to a
deterministic traversal of the two index maps, with the `context`
cancellation signal modelled by a boolean that every task consults exactly
where the Go code consults `ctx.Done()`.
-/

namespace Ec2Drift

/-- The `root_block_device` sub-structure of `cloud.Instance`
(`VolumeSize int`, `VolumeType string`). -/
structure RootBlockDevice where
  VolumeSize : Int
  VolumeType : String
deriving DecidableEq, Repr

/-- `cloud.Instance`: instance id, AMI, instance type, security groups,
tag map (association list with distinct keys) and root block device. -/
structure Instance where
  InstanceID : String
  AMI : String
  InstanceType : String
  SecurityGroups : List String
  Tags : List (String × String)
  RootBlockDevice : RootBlockDevice
deriving DecidableEq, Repr

/-- Closed variant type standing for the Go `interface{}` values stored in
`DriftDetail.ExpectedValue` / `ActualValue`: the code stores `nil`,
strings, ints, string slices, or whole instances. -/
inductive Value where
  | null
  | str (s : String)
  | int (n : Int)
  | strList (l : List String)
  | inst (i : Instance)
deriving DecidableEq, Repr

/-- `driftchecker.DriftDetail`.  (`Attribute` is the Go field name.) -/
structure DriftDetail where
  Attribute : String
  ExpectedValue : Value
  ActualValue : Value
deriving DecidableEq, Repr

/-- `driftchecker.DriftReport`. -/
structure DriftReport where
  InstanceID : String
  Name : String
  Drifts : List DriftDetail
deriving DecidableEq, Repr

/-- Lookup in an association list (the embedding of a Go map read
`v, ok := m[k]`); returns the value of the first entry with the key. -/
def lookupAssoc {α : Type} : List (String × α) → String → Option α
  | [], _ => none
  | (k2, v) :: rest, k => if k2 = k then some v else lookupAssoc rest k

/-- Split a character list at every `'.'`, keeping empty segments —
the semantics of Go `strings.Split(s, ".")` on the rune level. -/
def splitDot : List Char → List (List Char)
  | [] => [[]]
  | ch :: rest =>
    let r := splitDot rest
    if ch = '.' then [] :: r
    else
      match r with
      | [] => [[ch]]
      | h :: t => (ch :: h) :: t

/-- `strings.Split(attr, ".")` from the comparison loop of `Detect`. -/
def splitAttr (s : String) : List String :=
  (splitDot s.data).map (fun l => String.mk l)

/-- Lexicographic comparison of character lists by code point: the order
`sort.Strings` sorts by. -/
def lexLe : List Char → List Char → Bool
  | [], _ => true
  | _ :: _, [] => false
  | a :: as, b :: bs =>
    if a.toNat < b.toNat then true
    else if b.toNat < a.toNat then false
    else lexLe as bs

/-- The string order used by `sort.Strings`. -/
def strLe (a b : String) : Prop := lexLe a.data b.data = true

instance : DecidableRel strLe := fun a b =>
  instDecidableEqBool (lexLe a.data b.data) true

/-- `sort.Strings`: sort a string slice into ascending order. -/
def sortStrings (l : List String) : List String := List.insertionSort strLe l

/-- `equalStringSlices` (driftchecker.go:196-205): length check, then
equality of the two independently sorted copies. -/
def equalStringSlices (a b : List String) : Bool :=
  a.length == b.length && sortStrings a == sortStrings b

/-- The body of the `switch parts[0]` statement evaluating one attribute
path against a matched pair (driftchecker.go:94-155).  `attr` is the full
path string (used verbatim in emitted details), `parts` its split. -/
def compareAttrParts (attr : String) (parts : List String) (o c : Instance) :
    List DriftDetail :=
  match parts with
  | [] => []
  | seg :: rest =>
    if seg = "ami" then
      if o.AMI ≠ c.AMI then [⟨attr, .str o.AMI, .str c.AMI⟩] else []
    else if seg = "instance_type" then
      if o.InstanceType ≠ c.InstanceType then
        [⟨attr, .str o.InstanceType, .str c.InstanceType⟩]
      else []
    else if seg = "security_groups" then
      if ¬ equalStringSlices o.SecurityGroups c.SecurityGroups then
        [⟨attr, .strList o.SecurityGroups, .strList c.SecurityGroups⟩]
      else []
    else if seg = "tags" then
      match rest with
      | key :: _ =>
        if key = "Name" then []
        else
          let oVal := lookupAssoc o.Tags key
          let cVal := lookupAssoc c.Tags key
          if oVal.isNone ∨ cVal.isNone ∨ oVal.getD "" ≠ cVal.getD "" then
            [⟨attr, .str (oVal.getD ""), .str (cVal.getD "")⟩]
          else []
      | [] =>
        o.Tags.filterMap (fun p =>
          if p.1 = "Name" then none
          else
            match lookupAssoc c.Tags p.1 with
            | some cv =>
              if p.2 ≠ cv then some ⟨"tags." ++ p.1, .str p.2, .str cv⟩
              else none
            | none => some ⟨"tags." ++ p.1, .str p.2, .str ""⟩)
    else if seg = "root_block_device" then
      match rest with
      | sub :: _ =>
        if sub = "volume_size" then
          if o.RootBlockDevice.VolumeSize ≠ c.RootBlockDevice.VolumeSize then
            [⟨attr, .int o.RootBlockDevice.VolumeSize,
              .int c.RootBlockDevice.VolumeSize⟩]
          else []
        else if sub = "volume_type" then
          if o.RootBlockDevice.VolumeType ≠ c.RootBlockDevice.VolumeType then
            [⟨attr, .str o.RootBlockDevice.VolumeType,
              .str c.RootBlockDevice.VolumeType⟩]
          else []
        else []
      | [] =>
        (if o.RootBlockDevice.VolumeSize ≠ c.RootBlockDevice.VolumeSize then
          [⟨"root_block_device.volume_size",
            .int o.RootBlockDevice.VolumeSize,
            .int c.RootBlockDevice.VolumeSize⟩]
        else []) ++
        (if o.RootBlockDevice.VolumeType ≠ c.RootBlockDevice.VolumeType then
          [⟨"root_block_device.volume_type",
            .str o.RootBlockDevice.VolumeType,
            .str c.RootBlockDevice.VolumeType⟩]
        else [])
    else []

/-- Evaluate one attribute path against a matched pair: split first, then
dispatch on the head segment. -/
def compareAttr (o c : Instance) (attr : String) : List DriftDetail :=
  compareAttrParts attr (splitAttr attr) o c

/-- The `for _, attr := range attributes` loop accumulating `drifts`. -/
def collectDrifts (o c : Instance) : List String → List DriftDetail
  | [] => []
  | a :: rest => compareAttr o c a ++ collectDrifts o c rest

/-- `sendReport` (driftchecker.go:47-52): post the report unless the
cancellation signal has fired, in which case it is dropped. -/
def sendReport (cancelled : Bool) (r : DriftReport) : Option DriftReport :=
  if cancelled then none else some r

/-- The removed-instance goroutine (driftchecker.go:63-80): check
cancellation, then emit the synthetic `instance_removed` report. -/
def removedTask (cancelled : Bool) (o : Instance) (n : String) :
    Option DriftReport :=
  if cancelled then none
  else sendReport cancelled
    ⟨o.InstanceID, n, [⟨"instance_removed", .inst o, .null⟩]⟩

/-- The matched-pair goroutine (driftchecker.go:85-160): check
cancellation, collect the drifts over all requested attributes, and emit
a report only when at least one drift was found. -/
def matchedTask (cancelled : Bool) (o c : Instance) (n : String)
    (attrs : List String) : Option DriftReport :=
  if cancelled then none
  else if (collectDrifts o c attrs).isEmpty then none
  else sendReport cancelled ⟨o.InstanceID, n, collectDrifts o c attrs⟩

/-- The added-instance goroutine (driftchecker.go:166-179). -/
def addedTask (cancelled : Bool) (c : Instance) (n : String) :
    Option DriftReport :=
  if cancelled then none
  else sendReport cancelled
    ⟨c.InstanceID, n, [⟨"instance_added", .null, .inst c⟩]⟩

/-- Go map insertion `m[k] = v`: overwrite the entry with key `k` in
place if present, otherwise append a new entry. -/
def insertAssoc {α : Type} : List (String × α) → String → α → List (String × α)
  | [], k, v => [(k, v)]
  | (k2, v2) :: rest, k, v =>
    if k2 = k then (k, v) :: rest else (k2, v2) :: insertAssoc rest k v

/-- The index-construction loops of `Detect` (driftchecker.go:31-42):
fold over the records, inserting each under its `"Name"` tag when that
tag is present and skipping it otherwise. -/
def buildIndexAux (m : List (String × Instance)) :
    List Instance → List (String × Instance)
  | [] => m
  | inst :: rest =>
    match lookupAssoc inst.Tags "Name" with
    | some name => buildIndexAux (insertAssoc m name inst) rest
    | none => buildIndexAux m rest

/-- The identity index of a record collection. -/
def buildIndex (l : List Instance) : List (String × Instance) :=
  buildIndexAux [] l

/-- `driftchecker.Detect`: build the two indexes, run the
removed/matched task for every key of the previous index and the added
task for every current-only key, and aggregate the emitted reports.  The
Go goroutines post to a buffered channel whose drained contents are the
result; since each task's output is a pure function of the shared
read-only state, the aggregate is (as a multiset) this deterministic
traversal. -/
def Detect (cancelled : Bool) (oldState currentState : List Instance)
    (attrs : List String) : List DriftReport :=
  let oldMap := buildIndex oldState
  let currMap := buildIndex currentState
  (oldMap.filterMap (fun p =>
    match lookupAssoc currMap p.1 with
    | none => removedTask cancelled p.2 p.1
    | some c => matchedTask cancelled p.2 c p.1 attrs)) ++
  (currMap.filterMap (fun p =>
    match lookupAssoc oldMap p.1 with
    | some _ => none
    | none => addedTask cancelled p.2 p.1))

/-- The last record in `l` whose `"Name"` tag equals `k` — the
specification's "later one in iteration order wins" record. -/
def lastWithName : List Instance → String → Option Instance
  | [], _ => none
  | inst :: rest, k =>
    match lastWithName rest k with
    | some i => some i
    | none => if lookupAssoc inst.Tags "Name" = some k then some inst else none

theorem lookup_insertAssoc {α : Type} (m : List (String × α)) (k k' : String)
    (v : α) :
    lookupAssoc (insertAssoc m k v) k' =
      if k = k' then some v else lookupAssoc m k' := by
  induction m with
  | nil => simp [insertAssoc, lookupAssoc]
  | cons hd tl ih =>
    obtain ⟨k2, v2⟩ := hd
    by_cases h1 : k2 = k
    · subst h1
      by_cases h2 : k2 = k'
      · subst h2; simp [insertAssoc, lookupAssoc]
      · simp [insertAssoc, lookupAssoc, h2]
    · by_cases h2 : k2 = k'
      · subst h2
        have : ¬ k = k2 := fun h => h1 h.symm
        simp [insertAssoc, lookupAssoc, h1, this]
      · simp [insertAssoc, lookupAssoc, h1, h2, ih]

theorem lookup_eq_none_of_not_mem_keys {α : Type} (m : List (String × α))
    (k : String) (h : k ∉ m.map Prod.fst) : lookupAssoc m k = none := by
  induction m with
  | nil => rfl
  | cons hd tl ih =>
    simp only [List.map_cons, List.mem_cons] at h
    push_neg at h
    have : ¬ hd.1 = k := fun he => h.1 he.symm
    obtain ⟨k2, v2⟩ := hd
    simpa [lookupAssoc, this] using ih h.2

theorem mem_of_lookup_eq_some {α : Type} (m : List (String × α)) (k : String)
    (v : α) (h : lookupAssoc m k = some v) : (k, v) ∈ m := by
  induction m with
  | nil => simp [lookupAssoc] at h
  | cons hd tl ih =>
    obtain ⟨k2, v2⟩ := hd
    by_cases h1 : k2 = k
    · subst h1
      simp [lookupAssoc] at h
      subst h
      exact List.mem_cons_self _ _
    · simp only [lookupAssoc, if_neg h1] at h
      exact List.mem_cons_of_mem _ (ih h)

theorem keys_insertAssoc {α : Type} (m : List (String × α)) (k : String)
    (v : α) :
    (insertAssoc m k v).map Prod.fst =
      if k ∈ m.map Prod.fst then m.map Prod.fst
      else m.map Prod.fst ++ [k] := by
  induction m with
  | nil => simp [insertAssoc]
  | cons hd tl ih =>
    obtain ⟨k2, v2⟩ := hd
    by_cases h1 : k2 = k
    · subst h1; simp [insertAssoc]
    · have h1' : ¬ k = k2 := fun he => h1 he.symm
      by_cases h2 : k ∈ tl.map Prod.fst
      · simp [insertAssoc, h1, h1', h2, ih]
      · simp [insertAssoc, h1, h1', h2, ih]

theorem keys_nodup_insertAssoc {α : Type} (m : List (String × α)) (k : String)
    (v : α) (h : (m.map Prod.fst).Nodup) :
    ((insertAssoc m k v).map Prod.fst).Nodup := by
  rw [keys_insertAssoc]
  by_cases h2 : k ∈ m.map Prod.fst
  · simpa [h2] using h
  · simp only [h2, if_false]
    refine List.Nodup.append h (List.nodup_singleton k) ?_
    intro a ha hb
    simp only [List.mem_singleton] at hb
    subst hb
    exact h2 ha

theorem keys_nodup_buildIndexAux (l : List Instance)
    (m : List (String × Instance)) (h : (m.map Prod.fst).Nodup) :
    ((buildIndexAux m l).map Prod.fst).Nodup := by
  induction l generalizing m with
  | nil => simpa [buildIndexAux] using h
  | cons inst rest ih =>
    cases hn : lookupAssoc inst.Tags "Name" with
    | none => simpa [buildIndexAux, hn] using ih m h
    | some name =>
      simpa [buildIndexAux, hn] using
        ih (insertAssoc m name inst) (keys_nodup_insertAssoc m name inst h)

theorem keys_nodup_buildIndex (l : List Instance) :
    ((buildIndex l).map Prod.fst).Nodup :=
  keys_nodup_buildIndexAux l [] (by simp)

theorem length_insertAssoc {α : Type} (m : List (String × α)) (k : String)
    (v : α) : (insertAssoc m k v).length ≤ m.length + 1 := by
  induction m with
  | nil => simp [insertAssoc]
  | cons hd tl ih =>
    obtain ⟨k2, v2⟩ := hd
    by_cases h1 : k2 = k
    · simp [insertAssoc, h1]
    · simp only [insertAssoc, if_neg h1, List.length_cons]
      omega

theorem length_buildIndexAux (l : List Instance)
    (m : List (String × Instance)) :
    (buildIndexAux m l).length ≤ m.length + l.length := by
  induction l generalizing m with
  | nil => simp [buildIndexAux]
  | cons inst rest ih =>
    cases hn : lookupAssoc inst.Tags "Name" with
    | none =>
      simp only [buildIndexAux, hn, List.length_cons]
      exact le_trans (ih m) (by omega)
    | some name =>
      simp only [buildIndexAux, hn, List.length_cons]
      refine le_trans (ih (insertAssoc m name inst)) ?_
      have := length_insertAssoc m name inst
      omega

theorem length_buildIndex (l : List Instance) :
    (buildIndex l).length ≤ l.length := by
  simpa [buildIndex] using length_buildIndexAux l []

theorem lookup_buildIndexAux (l : List Instance)
    (m : List (String × Instance)) (k : String) :
    lookupAssoc (buildIndexAux m l) k =
      match lastWithName l k with
      | some i => some i
      | none => lookupAssoc m k := by
  induction l generalizing m with
  | nil => simp [buildIndexAux, lastWithName]
  | cons inst rest ih =>
    cases hn : lookupAssoc inst.Tags "Name" with
    | none =>
      rw [buildIndexAux]
      simp only [hn]
      rw [ih m]
      cases hl : lastWithName rest k with
      | some i => simp [lastWithName, hl]
      | none => simp [lastWithName, hl, hn]
    | some name =>
      rw [buildIndexAux]
      simp only [hn]
      rw [ih (insertAssoc m name inst)]
      cases hl : lastWithName rest k with
      | some i => simp [lastWithName, hl]
      | none =>
        rw [lookup_insertAssoc]
        by_cases h1 : name = k
        · subst h1; simp [lastWithName, hl, hn]
        · simp [lastWithName, hl, hn, h1]

theorem lookup_buildIndex (l : List Instance) (k : String) :
    lookupAssoc (buildIndex l) k = lastWithName l k := by
  rw [buildIndex, lookup_buildIndexAux]
  cases lastWithName l k <;> simp [lookupAssoc]

theorem buildIndexAux_filter_hasName (l : List Instance)
    (m : List (String × Instance)) :
    buildIndexAux m (l.filter fun i => (lookupAssoc i.Tags "Name").isSome) =
      buildIndexAux m l := by
  induction l generalizing m with
  | nil => rfl
  | cons inst rest ih =>
    cases hn : lookupAssoc inst.Tags "Name" with
    | none => simp [List.filter_cons, hn, buildIndexAux, ih]
    | some name => simp [List.filter_cons, hn, buildIndexAux, ih]

theorem removedTask_false (o : Instance) (n : String) :
    removedTask false o n =
      some ⟨o.InstanceID, n, [⟨"instance_removed", .inst o, .null⟩]⟩ := rfl

theorem addedTask_false (c : Instance) (n : String) :
    addedTask false c n =
      some ⟨c.InstanceID, n, [⟨"instance_added", .null, .inst c⟩]⟩ := rfl

theorem matchedTask_false (o c : Instance) (n : String) (attrs : List String) :
    matchedTask false o c n attrs =
      if (collectDrifts o c attrs).isEmpty then none
      else some ⟨o.InstanceID, n, collectDrifts o c attrs⟩ := rfl

theorem removedTask_name (cancelled : Bool) (o : Instance) (n : String)
    (r : DriftReport) (h : removedTask cancelled o n = some r) : r.Name = n := by
  unfold removedTask sendReport at h
  split at h
  · simp at h
  · rw [← Option.some.inj h]

theorem addedTask_name (cancelled : Bool) (c : Instance) (n : String)
    (r : DriftReport) (h : addedTask cancelled c n = some r) : r.Name = n := by
  unfold addedTask sendReport at h
  split at h
  · simp at h
  · rw [← Option.some.inj h]

theorem matchedTask_name (cancelled : Bool) (o c : Instance) (n : String)
    (attrs : List String) (r : DriftReport)
    (h : matchedTask cancelled o c n attrs = some r) : r.Name = n := by
  unfold matchedTask sendReport at h
  split at h
  · simp at h
  · split at h
    · simp at h
    · rw [← Option.some.inj h]

theorem filterMap_filter_key (m : List (String × Instance))
    (f : String × Instance → Option DriftReport)
    (hf : ∀ p r, f p = some r → r.Name = p.1)
    (hnd : (m.map Prod.fst).Nodup) (k : String) :
    (m.filterMap f).filter (fun r => r.Name == k) =
      match lookupAssoc m k with
      | some v => (f (k, v)).toList
      | none => [] := by
  induction m with
  | nil => simp [lookupAssoc]
  | cons hd tl ih =>
    obtain ⟨k2, v2⟩ := hd
    simp only [List.map_cons, List.nodup_cons] at hnd
    obtain ⟨hk2, hndtl⟩ := hnd
    by_cases h1 : k2 = k
    · subst h1
      have htail : (tl.filterMap f).filter (fun r => r.Name == k2) = [] := by
        rw [ih hndtl, lookup_eq_none_of_not_mem_keys tl k2 hk2]
      rw [List.filterMap_cons]
      cases hf2 : f (k2, v2) with
      | none => simp [lookupAssoc, hf2, htail]
      | some r =>
        have hr : r.Name = k2 := hf (k2, v2) r hf2
        simp [lookupAssoc, hf2, List.filter_cons, hr, htail]
    · rw [List.filterMap_cons]
      cases hf2 : f (k2, v2) with
      | none => simp [lookupAssoc, h1, hf2, ih hndtl]
      | some r =>
        have hr : r.Name = k2 := hf _ _ hf2
        have hne : (r.Name == k) = false := by
          simp [hr, h1]
        simp [lookupAssoc, h1, List.filter_cons, hne, ih hndtl]

theorem detect_filter_key (cancelled : Bool) (old curr : List Instance)
    (attrs : List String) (k : String) :
    (Detect cancelled old curr attrs).filter (fun r => r.Name == k) =
      match lookupAssoc (buildIndex old) k, lookupAssoc (buildIndex curr) k with
      | some o, some c => (matchedTask cancelled o c k attrs).toList
      | some o, none => (removedTask cancelled o k).toList
      | none, some c => (addedTask cancelled c k).toList
      | none, none => [] := by
  have hf1 : ∀ (p : String × Instance) (r : DriftReport),
      (match lookupAssoc (buildIndex curr) p.1 with
       | none => removedTask cancelled p.2 p.1
       | some c => matchedTask cancelled p.2 c p.1 attrs) = some r →
      r.Name = p.1 := by
    intro p r h
    cases hl : lookupAssoc (buildIndex curr) p.1 with
    | none => rw [hl] at h; exact removedTask_name _ _ _ _ h
    | some c => rw [hl] at h; exact matchedTask_name _ _ _ _ _ _ h
  have hf2 : ∀ (p : String × Instance) (r : DriftReport),
      (match lookupAssoc (buildIndex old) p.1 with
       | some _ => none
       | none => addedTask cancelled p.2 p.1) = some r →
      r.Name = p.1 := by
    intro p r h
    cases hl : lookupAssoc (buildIndex old) p.1 with
    | none => rw [hl] at h; exact addedTask_name _ _ _ _ h
    | some c => rw [hl] at h; simp at h
  rw [Detect, List.filter_append]
  rw [filterMap_filter_key _ _ hf1 (keys_nodup_buildIndex old) k]
  rw [filterMap_filter_key _ _ hf2 (keys_nodup_buildIndex curr) k]
  cases ho : lookupAssoc (buildIndex old) k with
  | none =>
    cases hc : lookupAssoc (buildIndex curr) k with
    | none => simp
    | some c => simp [ho]
  | some o =>
    cases hc : lookupAssoc (buildIndex curr) k with
    | none =>
      cases hr : removedTask cancelled o k with
      | none => simp [ho, hc, hr]
      | some r => simp [ho, hc, hr]
    | some c =>
      cases hm : matchedTask cancelled o c k attrs with
      | none => simp [ho, hc, hm]
      | some r => simp [ho, hc, hm]

theorem lexLe_total : ∀ a b : List Char, lexLe a b = true ∨ lexLe b a = true
  | [], _ => Or.inl rfl
  | _ :: _, [] => Or.inr rfl
  | a :: as, b :: bs => by
    rcases Nat.lt_trichotomy a.toNat b.toNat with h | h | h
    · left; simp [lexLe, h]
    · have h1 : ¬ a.toNat < b.toNat := by omega
      have h2 : ¬ b.toNat < a.toNat := by omega
      rcases lexLe_total as bs with ih | ih
      · left; simp [lexLe, h1, h2, ih]
      · right; simp [lexLe, h1, h2, ih]
    · right; simp [lexLe, h]

theorem lexLe_trans : ∀ a b c : List Char,
    lexLe a b = true → lexLe b c = true → lexLe a c = true
  | [], _, _ => by intro _ _; rfl
  | _ :: _, [], _ => by intro h _; simp [lexLe] at h
  | _ :: _, _ :: _, [] => by intro _ h; simp [lexLe] at h
  | a :: as, b :: bs, c :: cs => by
    simp only [lexLe]
    intro h1 h2
    by_cases hab : a.toNat < b.toNat
    · by_cases hbc : b.toNat < c.toNat
      · have hac : a.toNat < c.toNat := Nat.lt_trans hab hbc
        simp [hac]
      · by_cases hcb : c.toNat < b.toNat
        · simp [hbc, hcb] at h2
        · have hac : a.toNat < c.toNat := by omega
          simp [hac]
    · by_cases hba : b.toNat < a.toNat
      · simp [hab, hba] at h1
      · simp only [hab, hba, if_false] at h1
        by_cases hbc : b.toNat < c.toNat
        · have hac : a.toNat < c.toNat := by omega
          simp [hac]
        · by_cases hcb : c.toNat < b.toNat
          · simp [hbc, hcb] at h2
          · have h3 : ¬ a.toNat < c.toNat := by omega
            have h4 : ¬ c.toNat < a.toNat := by omega
            simp only [hbc, hcb, if_false] at h2
            simp [h3, h4, lexLe_trans as bs cs h1 h2]

theorem lexLe_antisymm : ∀ a b : List Char,
    lexLe a b = true → lexLe b a = true → a = b
  | [], [] => by intro _ _; rfl
  | [], _ :: _ => by intro _ h; simp [lexLe] at h
  | _ :: _, [] => by intro h _; simp [lexLe] at h
  | a :: as, b :: bs => by
    intro h1 h2
    by_cases hab : a.toNat < b.toNat
    · have hba : ¬ b.toNat < a.toNat := by omega
      simp [lexLe, hab, hba] at h2
    · by_cases hba : b.toNat < a.toNat
      · simp [lexLe, hab, hba] at h1
      · have hn : a.toNat = b.toNat := by omega
        have hc : a = b := Char.ext_iff.mpr (UInt32.ext hn)
        subst hc
        simp only [lexLe, hab, hba, if_false] at h1 h2
        rw [lexLe_antisymm as bs h1 h2]

instance : IsTotal String strLe := ⟨fun a b => lexLe_total a.data b.data⟩

instance : IsTrans String strLe :=
  ⟨fun a b c => lexLe_trans a.data b.data c.data⟩

instance : IsAntisymm String strLe := by
  refine ⟨fun a b h1 h2 => ?_⟩
  cases a
  cases b
  exact congrArg String.mk (lexLe_antisymm _ _ h1 h2)

theorem sortStrings_eq_iff (a b : List String) :
    sortStrings a = sortStrings b ↔ a.Perm b := by
  constructor
  · intro h
    have ha := List.perm_insertionSort strLe a
    have hb := List.perm_insertionSort strLe b
    rw [show List.insertionSort strLe a = sortStrings a from rfl, h] at ha
    exact ha.symm.trans hb
  · intro h
    refine List.eq_of_perm_of_sorted ?_ (List.sorted_insertionSort strLe a)
      (List.sorted_insertionSort strLe b)
    exact (List.perm_insertionSort strLe a).trans
      (h.trans (List.perm_insertionSort strLe b).symm)

/-- The Go helper `equalStringSlices` decides exactly multiset equality of
the two slices. -/
theorem equalStringSlices_iff (a b : List String) :
    equalStringSlices a b = true ↔ a.Perm b := by
  unfold equalStringSlices
  rw [Bool.and_eq_true, beq_iff_eq, beq_iff_eq]
  constructor
  · rintro ⟨_, h⟩
    exact (sortStrings_eq_iff a b).1 h
  · intro h
    exact ⟨h.length_eq, (sortStrings_eq_iff a b).2 h⟩

/-- Agreement of a matched pair on one requested attribute path, in the
sense of claim C1: equal scalars where requested, security groups equal
as multisets, requested non-`Name` tag keys present on both sides with
equal values, previous-side tag entries matched by the current side under
the bare `tags` path, and equal root-block-device fields. -/
def agreeOn (o c : Instance) (attr : String) : Bool :=
  match splitAttr attr with
  | [] => true
  | seg :: rest =>
    if seg = "ami" then o.AMI == c.AMI
    else if seg = "instance_type" then o.InstanceType == c.InstanceType
    else if seg = "security_groups" then
      decide (o.SecurityGroups.Perm c.SecurityGroups)
    else if seg = "tags" then
      match rest with
      | key :: _ =>
        key == "Name" ||
          ((lookupAssoc o.Tags key).isSome &&
            lookupAssoc o.Tags key == lookupAssoc c.Tags key)
      | [] =>
        o.Tags.all (fun p =>
          p.1 == "Name" || lookupAssoc c.Tags p.1 == some p.2)
    else if seg = "root_block_device" then
      match rest with
      | sub :: _ =>
        (sub != "volume_size" ||
          o.RootBlockDevice.VolumeSize == c.RootBlockDevice.VolumeSize) &&
        (sub != "volume_type" ||
          o.RootBlockDevice.VolumeType == c.RootBlockDevice.VolumeType)
      | [] =>
        o.RootBlockDevice.VolumeSize == c.RootBlockDevice.VolumeSize &&
        o.RootBlockDevice.VolumeType == c.RootBlockDevice.VolumeType
    else true

theorem agreeOn_compareAttr (o c : Instance) (attr : String)
    (h : agreeOn o c attr = true) : compareAttr o c attr = [] := by
  rw [agreeOn] at h
  rw [compareAttr]
  cases hs : splitAttr attr with
  | nil => rfl
  | cons seg rest =>
    rw [hs] at h
    simp only [compareAttrParts]
    by_cases h1 : seg = "ami"
    · subst h1
      simp only [String.reduceEq, reduceIte] at h ⊢
      rw [beq_iff_eq] at h
      simp [h]
    · by_cases h2 : seg = "instance_type"
      · subst h2
        simp only [String.reduceEq, reduceIte] at h ⊢
        rw [beq_iff_eq] at h
        simp [h]
      · by_cases h3 : seg = "security_groups"
        · subst h3
          simp only [String.reduceEq, reduceIte] at h ⊢
          have hp : o.SecurityGroups.Perm c.SecurityGroups :=
            of_decide_eq_true h
          simp [(equalStringSlices_iff _ _).2 hp]
        · by_cases h4 : seg = "tags"
          · subst h4
            cases rest with
            | cons key tl =>
              simp only [String.reduceEq, reduceIte] at h ⊢
              by_cases hk : key = "Name"
              · simp [hk]
              · rw [if_neg hk]
                rw [Bool.or_eq_true] at h
                rcases h with hk' | hAB
                · exact absurd (by simpa using hk') hk
                · rw [Bool.and_eq_true, beq_iff_eq] at hAB
                  obtain ⟨hsome, he⟩ := hAB
                  cases ho2 : lookupAssoc o.Tags key with
                  | none => rw [ho2] at hsome; simp at hsome
                  | some v =>
                    rw [ho2] at he
                    have hcc : lookupAssoc c.Tags key = some v := he.symm
                    rw [hcc]
                    simp
            | nil =>
              simp only [String.reduceEq, reduceIte] at h ⊢
              rw [List.filterMap_eq_nil_iff]
              intro p hp
              rw [List.all_eq_true] at h
              have hpp := h p hp
              by_cases hk : p.1 = "Name"
              · simp [hk]
              · rw [Bool.or_eq_true] at hpp
                rcases hpp with hk' | hv
                · exact absurd (by simpa using hk') hk
                · rw [beq_iff_eq] at hv
                  simp [hk, hv]
          · by_cases h5 : seg = "root_block_device"
            · subst h5
              cases rest with
              | cons sub tl =>
                simp only [String.reduceEq, reduceIte] at h ⊢
                rw [Bool.and_eq_true] at h
                obtain ⟨hvs, hvt⟩ := h
                by_cases hsz : sub = "volume_size"
                · rw [if_pos hsz]
                  subst hsz
                  simp only [bne_self_eq_false, Bool.false_or,
                    beq_iff_eq] at hvs
                  simp [hvs]
                · rw [if_neg hsz]
                  by_cases hty : sub = "volume_type"
                  · rw [if_pos hty]
                    subst hty
                    simp only [bne_self_eq_false, Bool.false_or,
                      beq_iff_eq] at hvt
                    simp [hvt]
                  · rw [if_neg hty]
              | nil =>
                simp only [String.reduceEq, reduceIte] at h ⊢
                rw [Bool.and_eq_true, beq_iff_eq, beq_iff_eq] at h
                simp [h.1, h.2]
            · rw [if_neg h1, if_neg h2, if_neg h3, if_neg h4, if_neg h5]

/-- Record used in concrete counterexamples and witnesses. -/
def instA : Instance :=
  ⟨"i-1", "ami-0", "t2.micro", [], [("Name", "app1")], ⟨8, "gp2"⟩⟩

/-- A previous-side record for the no-drift witness scenario. -/
def instB : Instance :=
  ⟨"i-2", "ami-0", "t2.micro", ["sg-2", "sg-1"],
    [("Name", "app1"), ("Env", "prod")], ⟨8, "gp2"⟩⟩

/-- A current-side record agreeing with `instB` on every requested path
(security groups merely reordered, instance id different). -/
def instC : Instance :=
  ⟨"i-3", "ami-0", "t2.micro", ["sg-1", "sg-2"],
    [("Name", "app1"), ("Env", "prod")], ⟨8, "gp2"⟩⟩

/-- C1, counterexample: the claim as stated is false on the code.  The
previous and the current record are the *same* record (hence identical on
every requested attribute path under any reading), the single requested
path is `tags.Env`, and `Detect` nevertheless emits a report for the
identity `"app1"`: a `tags.<key>` path whose key is absent from both tag
maps drifts (`!oOk` at driftchecker.go:117). -/
theorem claim_C1_counterexample :
    Detect false [instA] [instA] ["tags.Env"] =
      [⟨"i-1", "app1", [⟨"tags.Env", Value.str "", Value.str ""⟩]⟩] := by
  decide

/-- C1 (amended): no-drift idempotence holds once "identical on every
requested attribute path" requires every requested non-`Name` tag key to
be *present in both records* with equal value (a key absent from both
sides still drifts).  For every pair of record collections and requested
path list, if a previous and a current record share the identity key `k`
and agree (in the sense of `agreeOn`) on every requested path, `Detect`
emits no report for that identity. -/
theorem claim_C1 (old curr : List Instance) (attrs : List String)
    (k : String) (o c : Instance)
    (ho : lookupAssoc (buildIndex old) k = some o)
    (hc : lookupAssoc (buildIndex curr) k = some c)
    (hagree : ∀ a ∈ attrs, agreeOn o c a = true) :
    (Detect false old curr attrs).filter (fun r => r.Name == k) = [] := by
  rw [detect_filter_key, ho, hc]
  have hd : collectDrifts o c attrs = [] := by
    induction attrs with
    | nil => rfl
    | cons a tl ih =>
      rw [collectDrifts,
        agreeOn_compareAttr o c a (hagree a (List.mem_cons_self a tl)),
        List.nil_append]
      exact ih (fun x hx => hagree x (List.mem_cons_of_mem _ hx))
  show (matchedTask false o c k attrs).toList = []
  rw [matchedTask_false, hd]
  simp

/-- Witness for C1 (amended) at a concrete input: `instB` and `instC`
share identity `"app1"`, agree on all five requested paths (the security
groups as multisets), and no report is emitted for `"app1"`. -/
theorem claim_C1_witness :
    (Detect false [instB] [instC]
        ["ami", "instance_type", "security_groups", "tags.Env",
          "root_block_device"]).filter (fun r => r.Name == "app1") = [] :=
  claim_C1 [instB] [instC] _ "app1" instB instC (by decide) (by decide)
    (by decide)

/-- C2: add/remove classification.  In an uncancelled run, a key present
only in the previous index yields exactly one report, whose single detail
is `instance_removed` with the previous record as expected value and null
as actual; a key present only in the current index yields exactly one
report with the single `instance_added` detail and the values swapped. -/
theorem claim_C2 (old curr : List Instance) (attrs : List String)
    (k : String) :
    (∀ o : Instance, lookupAssoc (buildIndex old) k = some o →
      lookupAssoc (buildIndex curr) k = none →
      (Detect false old curr attrs).filter (fun r => r.Name == k) =
        [⟨o.InstanceID, k, [⟨"instance_removed", .inst o, .null⟩]⟩]) ∧
    (∀ c : Instance, lookupAssoc (buildIndex curr) k = some c →
      lookupAssoc (buildIndex old) k = none →
      (Detect false old curr attrs).filter (fun r => r.Name == k) =
        [⟨c.InstanceID, k, [⟨"instance_added", .null, .inst c⟩]⟩]) := by
  constructor
  · intro o ho hc
    rw [detect_filter_key, ho, hc]
    show (removedTask false o k).toList = _
    rw [removedTask_false]
    rfl
  · intro c hc ho
    rw [detect_filter_key, ho, hc]
    show (addedTask false c k).toList = _
    rw [addedTask_false]
    rfl

/-- Witness for C2: the spec's `"app1"` scenario in both directions. -/
theorem claim_C2_witness :
    (Detect false [instA] [] []).filter (fun r => r.Name == "app1") =
      [⟨"i-1", "app1", [⟨"instance_removed", .inst instA, .null⟩]⟩] ∧
    (Detect false [] [instA] []).filter (fun r => r.Name == "app1") =
      [⟨"i-1", "app1", [⟨"instance_added", .null, .inst instA⟩]⟩] :=
  ⟨(claim_C2 [instA] [] [] "app1").1 instA (by decide) (by decide),
   (claim_C2 [] [instA] [] "app1").2 instA (by decide) (by decide)⟩

/-- C8: cancellation degrades silently.  With the cancellation signal
already fired when `Detect` is invoked, every task abandons its work at
its first signal check, so the returned collection is empty (an empty
set is in particular a subset of the uncancelled result), and `Detect`
— a total function — returns rather than erroring; `sendReport` drops,
rather than queues, a report under cancellation. -/
theorem claim_C8 (old curr : List Instance) (attrs : List String) :
    Detect true old curr attrs = [] ∧
    ∀ r : DriftReport, sendReport true r = none := by
  constructor
  · rw [Detect, List.append_eq_nil]
    constructor
    · rw [List.filterMap_eq_nil_iff]
      intro p _
      cases lookupAssoc (buildIndex curr) p.1 <;> rfl
    · rw [List.filterMap_eq_nil_iff]
      intro p _
      cases lookupAssoc (buildIndex old) p.1 <;> rfl
  · intro r
    rfl

/-- C9: report-count bound.  `Detect` emits at most one report per
identity key, and the total number of reports never exceeds
`len(previousRecords) + len(currentRecords)` — the capacity the Go code
gives the aggregation channel (driftchecker.go:45), so a post never
blocks in a non-cancelled run. -/
theorem claim_C9 (old curr : List Instance) (attrs : List String) :
    (∀ k, (Detect false old curr attrs).countP (fun r => r.Name == k) ≤ 1) ∧
    (Detect false old curr attrs).length ≤ old.length + curr.length := by
  constructor
  · intro k
    have htl : ∀ x : Option DriftReport, x.toList.length ≤ 1 := by
      intro x
      cases x <;> simp
    rw [List.countP_eq_length_filter, detect_filter_key]
    cases lookupAssoc (buildIndex old) k with
    | none =>
      cases lookupAssoc (buildIndex curr) k with
      | none => simp
      | some c => exact htl _
    | some o =>
      cases lookupAssoc (buildIndex curr) k with
      | none => exact htl _
      | some c => exact htl _
  · rw [Detect, List.length_append]
    have l1 := List.length_filterMap_le
      (fun p : String × Instance =>
        match lookupAssoc (buildIndex curr) p.1 with
        | none => removedTask false p.2 p.1
        | some c => matchedTask false p.2 c p.1 attrs)
      (buildIndex old)
    have l2 := List.length_filterMap_le
      (fun p : String × Instance =>
        match lookupAssoc (buildIndex old) p.1 with
        | some _ => none
        | none => addedTask false p.2 p.1)
      (buildIndex curr)
    have b1 := length_buildIndex old
    have b2 := length_buildIndex curr
    omega

/-- C10: report identifier provenance.  Every report is keyed by its
`Name`; a matched-pair report takes its `InstanceID` from the *previous*
record even when the current record's id differs, a removed-report
carries the previous record's id, and an added-report carries the
current record's id. -/
theorem claim_C10 (old curr : List Instance) (attrs : List String)
    (r : DriftReport) (hr : r ∈ Detect false old curr attrs) :
    (∀ o c : Instance, lookupAssoc (buildIndex old) r.Name = some o →
      lookupAssoc (buildIndex curr) r.Name = some c →
      r.InstanceID = o.InstanceID) ∧
    (∀ o : Instance, lookupAssoc (buildIndex old) r.Name = some o →
      lookupAssoc (buildIndex curr) r.Name = none →
      r = ⟨o.InstanceID, r.Name, [⟨"instance_removed", .inst o, .null⟩]⟩) ∧
    (∀ c : Instance, lookupAssoc (buildIndex curr) r.Name = some c →
      lookupAssoc (buildIndex old) r.Name = none →
      r = ⟨c.InstanceID, r.Name, [⟨"instance_added", .null, .inst c⟩]⟩) := by
  have hmem : r ∈ (Detect false old curr attrs).filter
      (fun x => x.Name == r.Name) :=
    List.mem_filter.2 ⟨hr, by simp⟩
  rw [detect_filter_key] at hmem
  refine ⟨?_, ?_, ?_⟩
  · intro o c ho hc
    rw [ho, hc] at hmem
    have hm : r ∈ (matchedTask false o c r.Name attrs).toList := hmem
    rw [matchedTask_false] at hm
    by_cases hd : (collectDrifts o c attrs).isEmpty
    · rw [if_pos hd] at hm
      simp at hm
    · rw [if_neg hd] at hm
      simp only [Option.toList_some, List.mem_singleton] at hm
      rw [hm]
  · intro o ho hc
    rw [ho, hc] at hmem
    have hm : r ∈ (removedTask false o r.Name).toList := hmem
    rw [removedTask_false] at hm
    simp only [Option.toList_some, List.mem_singleton] at hm
    exact hm
  · intro c hc ho
    rw [ho, hc] at hmem
    have hm : r ∈ (addedTask false c r.Name).toList := hmem
    rw [addedTask_false] at hm
    simp only [Option.toList_some, List.mem_singleton] at hm
    exact hm

/-- Witness for C10 at a concrete removed-instance run. -/
theorem claim_C10_witness :
    (⟨"i-1", "app1", [⟨"instance_removed", .inst instA, .null⟩]⟩ :
        DriftReport) =
      ⟨instA.InstanceID, "app1",
        [⟨"instance_removed", .inst instA, .null⟩]⟩ :=
  (claim_C10 [instA] [] ["ami"]
      ⟨"i-1", "app1", [⟨"instance_removed", .inst instA, .null⟩]⟩
      (by decide)).2.1 instA (by decide) (by decide)

/-- C3: security-group comparison is order-independent.  For a matched
pair evaluated at path `security_groups`, no detail is produced exactly
when the two lists are equal as multisets (permutations of one another,
hence of equal length); when they differ, the single detail carries the
two *original* unsorted lists. -/
theorem claim_C3 (o c : Instance) :
    (compareAttr o c "security_groups" = [] ↔
      o.SecurityGroups.Perm c.SecurityGroups) ∧
    (¬ o.SecurityGroups.Perm c.SecurityGroups →
      compareAttr o c "security_groups" =
        [⟨"security_groups", .strList o.SecurityGroups,
          .strList c.SecurityGroups⟩]) := by
  have hs : splitAttr "security_groups" = ["security_groups"] := rfl
  rw [compareAttr, hs]
  simp only [compareAttrParts, String.reduceEq, reduceIte]
  by_cases hp : o.SecurityGroups.Perm c.SecurityGroups
  · have he := (equalStringSlices_iff o.SecurityGroups c.SecurityGroups).2 hp
    simp [he, hp]
  · have he : equalStringSlices o.SecurityGroups c.SecurityGroups = false := by
      rw [Bool.eq_false_iff]
      intro hq
      exact hp ((equalStringSlices_iff _ _).1 hq)
    simp [he, hp]

/-- A record with security groups `["sg-1", "sg-2"]`. -/
def instD : Instance :=
  ⟨"i-4", "ami-0", "t2.micro", ["sg-1", "sg-2"], [("Name", "app1")],
    ⟨8, "gp2"⟩⟩

/-- A record with security groups `["sg-1"]`. -/
def instE : Instance :=
  ⟨"i-5", "ami-0", "t2.micro", ["sg-1"], [("Name", "app1")], ⟨8, "gp2"⟩⟩

/-- Witness for C3: the spec's `["sg-1","sg-2"]` vs `["sg-1"]` scenario
yields the single detail carrying the two original lists. -/
theorem claim_C3_witness :
    compareAttr instD instE "security_groups" =
      [⟨"security_groups", .strList ["sg-1", "sg-2"], .strList ["sg-1"]⟩] :=
  (claim_C3 instD instE).2 (by decide)

/-- C4: Identity Indexer contract.  The index's lookup at any key is the
*last* record of the collection carrying that `"Name"` tag (records
lacking the tag are skipped; on duplicates the later record in iteration
order wins); consequently deleting every record lacking the `"Name"` tag
from either input leaves the output of `Detect` unchanged — such records
appear in no classification (matched, added, or removed). -/
theorem claim_C4 :
    (∀ (l : List Instance) (k : String),
      lookupAssoc (buildIndex l) k = lastWithName l k) ∧
    (∀ (cancelled : Bool) (old curr : List Instance) (attrs : List String),
      Detect cancelled
        (old.filter fun i => (lookupAssoc i.Tags "Name").isSome)
        (curr.filter fun i => (lookupAssoc i.Tags "Name").isSome) attrs =
      Detect cancelled old curr attrs) := by
  constructor
  · exact lookup_buildIndex
  · intro cancelled old curr attrs
    have hb : ∀ l : List Instance,
        buildIndex (l.filter fun i => (lookupAssoc i.Tags "Name").isSome) =
          buildIndex l :=
      fun l => buildIndexAux_filter_hasName l []
    simp only [Detect]
    rw [hb old, hb curr]

/-- C5: `tags.<key>` semantics.  For any matched pair and any path whose
split is `["tags", key]`: the reserved `"Name"` key never produces a
detail even when explicitly requested; for any other key, no detail is
produced exactly when the key is present in both tag maps with equal
value, and otherwise the single detail carries each side's value with
`""` standing in for an absent key — no other tag key can produce a
detail under this path. -/
theorem claim_C5 (o c : Instance) (attr key : String)
    (h : splitAttr attr = ["tags", key]) :
    (key = "Name" → compareAttr o c attr = []) ∧
    (key ≠ "Name" →
      (compareAttr o c attr = [] ↔
        (lookupAssoc o.Tags key = lookupAssoc c.Tags key ∧
          (lookupAssoc o.Tags key).isSome)) ∧
      (compareAttr o c attr = [] ∨
        compareAttr o c attr =
          [⟨attr, .str ((lookupAssoc o.Tags key).getD ""),
            .str ((lookupAssoc c.Tags key).getD "")⟩])) := by
  rw [compareAttr, h]
  simp only [compareAttrParts, String.reduceEq, reduceIte]
  constructor
  · intro hk
    simp [hk]
  · intro hk
    rw [if_neg hk]
    refine ⟨⟨?_, ?_⟩, ?_⟩
    · intro he
      by_cases hcond : (lookupAssoc o.Tags key).isNone = true ∨
          (lookupAssoc c.Tags key).isNone = true ∨
          (lookupAssoc o.Tags key).getD "" ≠ (lookupAssoc c.Tags key).getD ""
      · rw [if_pos hcond] at he
        simp at he
      · push_neg at hcond
        obtain ⟨hno, hnc, hval⟩ := hcond
        cases hoo : lookupAssoc o.Tags key with
        | none => rw [hoo] at hno; simp at hno
        | some a =>
          cases hcc : lookupAssoc c.Tags key with
          | none => rw [hcc] at hnc; simp at hnc
          | some b =>
            rw [hoo, hcc] at hval
            simp only [Option.getD_some] at hval
            rw [hval]
            simp
    · rintro ⟨heq, hsome⟩
      cases hoo : lookupAssoc o.Tags key with
      | none => rw [hoo] at hsome; simp at hsome
      | some a =>
        rw [hoo] at heq
        rw [← heq]
        simp
    · by_cases hcond : (lookupAssoc o.Tags key).isNone = true ∨
          (lookupAssoc c.Tags key).isNone = true ∨
          (lookupAssoc o.Tags key).getD "" ≠ (lookupAssoc c.Tags key).getD ""
      · right
        rw [if_pos hcond]
      · left
        rw [if_neg hcond]

/-- Previous-side record for the tag-isolation scenario:
`{Env: prod, Owner: teamA}`. -/
def instF : Instance :=
  ⟨"i-6", "ami-0", "t2.micro", [],
    [("Name", "app1"), ("Env", "prod"), ("Owner", "teamA")], ⟨8, "gp2"⟩⟩

/-- Current-side record for the tag-isolation scenario:
`{Env: dev, Owner: teamA}`. -/
def instG : Instance :=
  ⟨"i-7", "ami-0", "t2.micro", [],
    [("Name", "app1"), ("Env", "dev"), ("Owner", "teamA")], ⟨8, "gp2"⟩⟩

/-- Witness for C5: requesting `tags.Env` with previous value `prod` and
current value `dev` yields exactly the `tags.Env` detail. -/
theorem claim_C5_witness :
    compareAttr instF instG "tags.Env" =
      [⟨"tags.Env", .str "prod", .str "dev"⟩] := by
  have h := (claim_C5 instF instG "tags.Env" "Env" (by decide)).2 (by decide)
  rcases h.2 with h2 | h2
  · exact absurd (h.1.1 h2) (by decide)
  · rw [h2]
    decide

theorem string_append_left_cancel {s t u : String}
    (h : s ++ t = s ++ u) : t = u := by
  have hd : (s ++ t).data = (s ++ u).data := congrArg String.data h
  rw [String.data_append, String.data_append] at hd
  have hd2 := List.append_cancel_left hd
  cases t
  cases u
  exact congrArg String.mk hd2

theorem filterMap_tag_countP (m : List (String × String))
    (g : String × String → Option DriftDetail)
    (hg : ∀ p d, g p = some d → d.Attribute = "tags." ++ p.1)
    (hnd : (m.map Prod.fst).Nodup) (k : String) :
    (m.filterMap g).countP (fun d => d.Attribute == "tags." ++ k) ≤ 1 := by
  induction m with
  | nil => simp
  | cons hd tl ih =>
    obtain ⟨k2, v2⟩ := hd
    simp only [List.map_cons, List.nodup_cons] at hnd
    obtain ⟨hk2, hndtl⟩ := hnd
    rw [List.filterMap_cons]
    cases hg2 : g (k2, v2) with
    | none => exact ih hndtl
    | some d =>
      rw [List.countP_cons]
      by_cases hmatch : (d.Attribute == "tags." ++ k) = true
      · have hk2k : k2 = k := by
          have hattr := hg _ _ hg2
          rw [hattr, beq_iff_eq] at hmatch
          exact string_append_left_cancel hmatch
        subst hk2k
        have hz : (tl.filterMap g).countP
            (fun d => d.Attribute == "tags." ++ k2) = 0 := by
          rw [List.countP_eq_zero]
          intro d' hd'
          obtain ⟨p, hp, hgp⟩ := List.mem_filterMap.1 hd'
          have hattr := hg _ _ hgp
          rw [hattr, beq_iff_eq]
          intro hcontra
          have : p.1 = k2 := string_append_left_cancel hcontra
          exact hk2 (this ▸ List.mem_map_of_mem Prod.fst hp)
        rw [hz, hmatch]
        simp
      · rw [Bool.not_eq_true] at hmatch
        rw [hmatch]
        simpa using ih hndtl

/-- C6: bare-`tags` asymmetry.  For any matched pair and any path whose
split is `["tags"]`: every non-`Name` entry of the *previous* tag map
whose key is absent or has a different value on the current side
produces its own detail named `tags.<key>` (with `""` displayed for an
absent current value); every emitted detail arises from such a
previous-side entry — so a key present only in the current tag map never
produces a detail; and (keys of a Go map being distinct) no key produces
more than one detail. -/
theorem claim_C6 (o c : Instance) (attr : String)
    (h : splitAttr attr = ["tags"]) :
    (∀ k v, (k, v) ∈ o.Tags → k ≠ "Name" →
      lookupAssoc c.Tags k ≠ some v →
      (⟨"tags." ++ k, .str v,
        .str ((lookupAssoc c.Tags k).getD "")⟩ : DriftDetail) ∈
        compareAttr o c attr) ∧
    (∀ d ∈ compareAttr o c attr, ∃ k v, (k, v) ∈ o.Tags ∧ k ≠ "Name" ∧
      lookupAssoc c.Tags k ≠ some v ∧
      d = ⟨"tags." ++ k, .str v,
        .str ((lookupAssoc c.Tags k).getD "")⟩) ∧
    ((o.Tags.map Prod.fst).Nodup → ∀ k,
      (compareAttr o c attr).countP
        (fun d => d.Attribute == "tags." ++ k) ≤ 1) := by
  rw [compareAttr, h]
  simp only [compareAttrParts, String.reduceEq, reduceIte]
  refine ⟨?_, ?_, ?_⟩
  · intro k v hkv hkn hne
    refine List.mem_filterMap.2 ⟨(k, v), hkv, ?_⟩
    rw [if_neg hkn]
    cases hcc : lookupAssoc c.Tags k with
    | none => simp
    | some cv =>
      have hvc : v ≠ cv := fun he => hne (he ▸ hcc)
      show (if v ≠ cv then
          some (⟨"tags." ++ k, Value.str v, Value.str cv⟩ : DriftDetail)
        else none) = _
      rw [if_pos hvc]
      simp
  · intro d hd
    obtain ⟨⟨k, v⟩, hkv, hg⟩ := List.mem_filterMap.1 hd
    by_cases hkn : k = "Name"
    · rw [if_pos hkn] at hg
      cases hg
    · rw [if_neg hkn] at hg
      refine ⟨k, v, hkv, hkn, ?_⟩
      cases hcc : lookupAssoc c.Tags k with
      | none =>
        rw [hcc] at hg
        refine ⟨by simp, ?_⟩
        rw [← Option.some.inj hg]
        simp
      | some cv =>
        rw [hcc] at hg
        have hg2 : (if v ≠ cv then
            some (⟨"tags." ++ k, Value.str v, Value.str cv⟩ : DriftDetail)
          else none) = some d := hg
        by_cases hvc : v = cv
        · rw [if_neg (not_not_intro hvc)] at hg2
          cases hg2
        · rw [if_pos hvc] at hg2
          refine ⟨fun he => hvc (Option.some.inj he).symm, ?_⟩
          rw [← Option.some.inj hg2]
          simp
  · intro hnd k
    refine filterMap_tag_countP o.Tags _ ?_ hnd k
    intro p d hg
    by_cases hkn : p.1 = "Name"
    · rw [if_pos hkn] at hg
      cases hg
    · rw [if_neg hkn] at hg
      cases hcc : lookupAssoc c.Tags p.1 with
      | none =>
        rw [hcc] at hg
        rw [← Option.some.inj hg]
      | some cv =>
        rw [hcc] at hg
        have hg2 : (if p.2 ≠ cv then
            some (⟨"tags." ++ p.1, Value.str p.2, Value.str cv⟩ : DriftDetail)
          else none) = some d := hg
        by_cases hvc : p.2 = cv
        · rw [if_neg (not_not_intro hvc)] at hg2
          cases hg2
        · rw [if_pos hvc] at hg2
          rw [← Option.some.inj hg2]

/-- Witness for C6: previous tags `{Env: prod, Owner: teamA}` against
current tags `{Env: dev, Owner: teamA}` under the bare `tags` path — the
mismatching `Env` entry yields its detail (first conjunct applied at
`Env`/`prod`). -/
theorem claim_C6_witness :
    (⟨"tags.Env", .str "prod", .str "dev"⟩ : DriftDetail) ∈
      compareAttr instF instG "tags" :=
  (claim_C6 instF instG "tags" (by decide)).1 "Env" "prod" (by decide)
    (by decide) (by decide)

/-- Does the first dot-separated segment of the path fall outside the five
supported attribute families? -/
def unsupportedHead (a : String) : Bool :=
  match splitAttr a with
  | [] => true
  | seg :: _ =>
    seg != "ami" && seg != "instance_type" && seg != "security_groups" &&
      seg != "tags" && seg != "root_block_device"

theorem compareAttr_unsupported (o c : Instance) (a : String)
    (h : unsupportedHead a = true) : compareAttr o c a = [] := by
  rw [unsupportedHead] at h
  rw [compareAttr]
  cases hs : splitAttr a with
  | nil => rfl
  | cons seg rest =>
    rw [hs] at h
    simp only [Bool.and_eq_true, bne_iff_ne, ne_eq] at h
    obtain ⟨⟨⟨⟨h1, h2⟩, h3⟩, h4⟩, h5⟩ := h
    simp only [compareAttrParts]
    rw [if_neg h1, if_neg h2, if_neg h3, if_neg h4, if_neg h5]

/-- C7: unsupported paths are silent no-ops.  Any requested path whose
first dot-separated segment is none of the five supported families
produces no detail and no error for any pair of records; and a matched
pair all of whose requested paths are unsupported yields no report at
all, whatever the differences between the two records. -/
theorem claim_C7 (old curr : List Instance) (attrs : List String)
    (h : ∀ a ∈ attrs, unsupportedHead a = true) :
    (∀ (o c : Instance), ∀ a ∈ attrs, compareAttr o c a = []) ∧
    (∀ (k : String) (o c : Instance),
      lookupAssoc (buildIndex old) k = some o →
      lookupAssoc (buildIndex curr) k = some c →
      (Detect false old curr attrs).filter (fun r => r.Name == k) = []) := by
  constructor
  · intro o c a ha
    exact compareAttr_unsupported o c a (h a ha)
  · intro k o c ho hc
    rw [detect_filter_key, ho, hc]
    show (matchedTask false o c k attrs).toList = []
    have hd : collectDrifts o c attrs = [] := by
      induction attrs with
      | nil => rfl
      | cons a tl ih =>
        rw [collectDrifts,
          compareAttr_unsupported o c a (h a (List.mem_cons_self a tl)),
          List.nil_append]
        exact ih (fun x hx => h x (List.mem_cons_of_mem _ hx))
    rw [matchedTask_false, hd]
    simp

/-- A current-side record differing from `instA` on every supported
attribute family. -/
def instH : Instance :=
  ⟨"i-9", "ami-9", "t3.large", ["sg-9"], [("Name", "app1"), ("Env", "x")],
    ⟨99, "io1"⟩⟩

/-- Witness for C7: requesting only `"unsupported_attr"` on a matched
pair with real differences on every supported family yields no report. -/
theorem claim_C7_witness :
    (Detect false [instA] [instH] ["unsupported_attr"]).filter
      (fun r => r.Name == "app1") = [] :=
  (claim_C7 [instA] [instH] ["unsupported_attr"] (by decide)).2 "app1"
    instA instH (by decide) (by decide)

end Ec2Drift
